import Mathlib

/-!
Shallow embedding of `fastapi_users_db_mongodb.MongoDBUserDatabase`
(src/fastapi_users_db_mongodb/__init__.py).

The adapter wraps a MongoDB collection.  We model the collection as a list
of documents in insertion ("natural") order; a document is structurally the
serialized user (`user.dict()` / `user_db_model(**user)` round-trip through
the same flat record, so the stored document type is the user record type).

MongoDB driver semantics used by the adapter, modelled here:
  * `find_one(filter)` returns the first document in natural order matching
    the filter, or absent;
  * a dotted-path condition on an array field (`"oauth_accounts.oauth_name": p`)
    matches a document when SOME array element satisfies it; two such
    conditions in one filter are matched independently (there is no
    `$elemMatch` in the source query), possibly by different elements;
  * `insert_one` appends the document, raising `DuplicateKeyError` when a
    unique index would be violated;
  * `replace_one(filter, doc)` (no upsert) replaces the first matching
    document wholesale, or does nothing when none matches; a unique index
    rejects the replacement if another document holds the same key;
  * `delete_one(filter)` removes the first matching document, or nothing;
  * `create_index` is idempotent and can fail (e.g. transport error);
  * `Collation("en", strength=2)` compares strings case-insensitively and
    accent-sensitively; we model a collation as a Boolean comparison on
    strings, the default being equality after lowercasing.
-/

namespace MongoDB

/-- One element of a user's `oauth_accounts` array (fields as queried by the
adapter: `oauth_name`, `account_id`). -/
structure OAuthAccount where
  oauth_name : String
  account_id : String
  deriving DecidableEq, Repr

/-- A user record / stored document.  `id`, `email` and `oauth_accounts` are
the fields the store interprets; `extra` stands for the arbitrary further
fields of the concrete pydantic model, carried through serialization
untouched. -/
structure User where
  id : Nat
  email : String
  oauth_accounts : List OAuthAccount
  extra : List (String × String)
  deriving DecidableEq, Repr

/-- The fields the adapter ever indexes. -/
inductive IndexKey where
  | id
  | email
  deriving DecidableEq, Repr

/-- A (uniqueness) index on the collection.  `collationAware` records whether
the index was created with a collation argument. -/
structure IndexSpec where
  key : IndexKey
  unique : Bool
  collationAware : Bool
  deriving DecidableEq, Repr

/-- Errors surfaced by the storage engine. -/
inductive DBError where
  | duplicateKeyError
  | operationFailure
  deriving DecidableEq, Repr

/-- State of one `MongoDBUserDatabase` instance together with its collection:
the documents, the indexes existing on the collection, the instance's
`initialized` flag, and the email collation chosen at construction. -/
structure Store where
  docs : List User
  indexes : List IndexSpec
  initialized : Bool
  emailCollation : String → String → Bool
  /-- Ghost observation: how many `create_index` calls completed against the
  collection (a call is counted also when the index already existed and the
  engine treated it as a no-op). -/
  indexCalls : Nat

/-- Environment oracle: whether each `create_index` call of the lazy
initialization raises (driver/transport failure). -/
structure Env where
  failIdIndex : Bool
  failEmailIndex : Bool
  deriving DecidableEq, Repr

/-- The environment in which the storage engine accepts both index creations. -/
def okEnv : Env := ⟨false, false⟩

/-- The default email collation `Collation("en", strength=2)`: strength 2
ignores case but distinguishes base letters (accent-sensitive).  Modelled as
equality of the character sequences after lowercasing: letters that differ
only in case compare equal, accented letters stay distinct from their base
letters. -/
def defaultCollation (a b : String) : Bool :=
  a.data.map Char.toLower == b.data.map Char.toLower

/-- `__init__`: wrap a collection (its current documents; no indexes assumed),
with `initialized = False`, and the given collation or the default one when
the argument is omitted (`none`). -/
def mkStore (docs : List User) (collation : Option (String → String → Bool)) : Store :=
  { docs := docs, indexes := [], initialized := false,
    emailCollation := collation.getD defaultCollation, indexCalls := 0 }

/-- Add an index to the collection's index list when it is not there yet. -/
def addIndex (ix : IndexSpec) (l : List IndexSpec) : List IndexSpec :=
  if ix ∈ l then l else l ++ [ix]

/-- `create_index(field, unique=True)`: idempotent (no-op when the index
already exists), fallible. -/
def createIndex (fail : Bool) (ix : IndexSpec) (s : Store) : Except DBError Store :=
  if fail then .error .operationFailure
  else .ok { s with indexes := addIndex ix s.indexes, indexCalls := s.indexCalls + 1 }

/-- `create_index("id", unique=True)`. -/
def idIndex : IndexSpec := ⟨.id, true, false⟩

/-- `create_index("email", unique=True)` — plain equality, no collation. -/
def emailIndex : IndexSpec := ⟨.email, true, false⟩

/-- The lazy initialization method of the adapter: when the `initialized`
flag is unset, create the unique index on `id`, then the unique index on
`email`, then set the flag.  The collation-aware email index is commented
out in the source and hence not created.  A failing `create_index` call
propagates and leaves the flag unset. -/
def lazyInit (env : Env) (s : Store) : Except DBError Unit × Store :=
  if s.initialized then (.ok (), s)
  else
    match createIndex env.failIdIndex idIndex s with
    | .error e => (.error e, s)
    | .ok s1 =>
      match createIndex env.failEmailIndex emailIndex s1 with
      | .error e => (.error e, s1)
      | .ok s2 => (.ok (), { s2 with initialized := true })

/-- Whether documents `d` and `u` collide on unique index `ix`. -/
def indexKeyClash (ix : IndexSpec) (d u : User) : Bool :=
  ix.unique &&
    match ix.key with
    | .id => d.id == u.id
    | .email => d.email == u.email

/-- `insert_one(u.dict())`: append, unless some existing document collides
with `u` on some unique index of the collection. -/
def insertOne (u : User) (s : Store) : Except DBError Store :=
  if s.indexes.any (fun ix => s.docs.any (fun d => indexKeyClash ix d u)) then
    .error .duplicateKeyError
  else .ok { s with docs := s.docs ++ [u] }

/-- Replace the first document whose `id` equals `i` by `u`. -/
def replaceFirst (i : Nat) (u : User) : List User → List User
  | [] => []
  | d :: rest => if d.id == i then u :: rest else d :: replaceFirst i u rest

/-- `replace_one({"id": i}, u.dict())` (no upsert): no-op when no document
matches; otherwise replace the matched document, unless a unique index
collides with one of the OTHER documents (the matched one is the one being
replaced, so it does not count). -/
def replaceOne (i : Nat) (u : User) (s : Store) : Except DBError Store :=
  if s.docs.any (fun d => d.id == i) then
    if s.indexes.any (fun ix => s.docs.any (fun d => !(d.id == i) && indexKeyClash ix d u)) then
      .error .duplicateKeyError
    else .ok { s with docs := replaceFirst i u s.docs }
  else .ok s

/-- `delete_one({"id": i})`: remove the first matching document, if any. -/
def deleteOne (i : Nat) (s : Store) : Store :=
  { s with docs := s.docs.eraseP (fun d => d.id == i) }

/-- `get(id)`: lazy init, then `find_one({"id": id})`. -/
def get (env : Env) (i : Nat) (s : Store) : Except DBError (Option User) × Store :=
  match lazyInit env s with
  | (.error e, s1) => (.error e, s1)
  | (.ok _, s1) => (.ok (s1.docs.find? (fun d => d.id == i)), s1)

/-- `get_by_email(email)`: lazy init, then
`find_one({"email": email}, collation=self.email_collation)`. -/
def get_by_email (env : Env) (email : String) (s : Store) :
    Except DBError (Option User) × Store :=
  match lazyInit env s with
  | (.error e, s1) => (.error e, s1)
  | (.ok _, s1) => (.ok (s1.docs.find? (fun d => s1.emailCollation d.email email)), s1)

/-- `get_by_oauth_account(oauth, account_id)`: lazy init, then
`find_one({"oauth_accounts.oauth_name": oauth, "oauth_accounts.account_id": account_id})`.
The two dotted-path conditions are matched independently over the array
(no `$elemMatch` in the source query), so a document qualifies when SOME
element carries the provider name and SOME — possibly different — element
carries the account id. -/
def get_by_oauth_account (env : Env) (oauth accountId : String) (s : Store) :
    Except DBError (Option User) × Store :=
  match lazyInit env s with
  | (.error e, s1) => (.error e, s1)
  | (.ok _, s1) =>
    (.ok (s1.docs.find? (fun d =>
      d.oauth_accounts.any (fun a => a.oauth_name == oauth) &&
      d.oauth_accounts.any (fun a => a.account_id == accountId))), s1)

/-- `create(user)`: lazy init, then `insert_one(user.dict())`, returning the
same user on success. -/
def create (env : Env) (u : User) (s : Store) : Except DBError User × Store :=
  match lazyInit env s with
  | (.error e, s1) => (.error e, s1)
  | (.ok _, s1) =>
    match insertOne u s1 with
    | .error e => (.error e, s1)
    | .ok s2 => (.ok u, s2)

/-- `update(user)`: lazy init, then `replace_one({"id": user.id}, user.dict())`,
returning the same user. -/
def update (env : Env) (u : User) (s : Store) : Except DBError User × Store :=
  match lazyInit env s with
  | (.error e, s1) => (.error e, s1)
  | (.ok _, s1) =>
    match replaceOne u.id u s1 with
    | .error e => (.error e, s1)
    | .ok s2 => (.ok u, s2)

/-- `delete(user)`: lazy init, then `delete_one({"id": user.id})`. -/
def delete (env : Env) (u : User) (s : Store) : Except DBError Unit × Store :=
  match lazyInit env s with
  | (.error e, s1) => (.error e, s1)
  | (.ok _, s1) => (.ok (), deleteOne u.id s1)

/-- One public operation of the adapter. -/
inductive Op where
  | get (i : Nat)
  | getByEmail (email : String)
  | getByOAuthAccount (oauth accountId : String)
  | create (u : User)
  | update (u : User)
  | delete (u : User)

/-- The store state after running one public operation. -/
def runOpState (env : Env) (op : Op) (s : Store) : Store :=
  match op with
  | .get i => (get env i s).2
  | .getByEmail e => (get_by_email env e s).2
  | .getByOAuthAccount p a => (get_by_oauth_account env p a s).2
  | .create u => (create env u s).2
  | .update u => (update env u s).2
  | .delete u => (delete env u s).2

/-- The state of a freshly wrapped collection after a successful lazy
initialization: both plain unique indexes exist and the flag is set. -/
def postInit (docs : List User) : Store :=
  { docs := docs, indexes := [idIndex, emailIndex], initialized := true,
    emailCollation := defaultCollation, indexCalls := 2 }

theorem lazyInit_fresh (docs : List User) :
    lazyInit okEnv (mkStore docs none) = (.ok (), postInit docs) := rfl

theorem lazyInit_of_initialized (env : Env) (s : Store) (h : s.initialized = true) :
    lazyInit env s = (.ok (), s) := by
  simp [lazyInit, h]

theorem postInit_initialized (docs : List User) : (postInit docs).initialized = true := rfl

theorem postInit_docs (docs : List User) : (postInit docs).docs = docs := rfl

theorem postInit_indexes (docs : List User) :
    (postInit docs).indexes = [idIndex, emailIndex] := rfl

theorem postInit_emailCollation (docs : List User) :
    (postInit docs).emailCollation = defaultCollation := rfl

theorem postInit_indexCalls (docs : List User) : (postInit docs).indexCalls = 2 := rfl

theorem find?_append_last {α : Type} (p : α → Bool) (l : List α) (u : α)
    (h : ∀ x ∈ l, p x = false) (hu : p u = true) :
    (l ++ [u]).find? p = some u := by
  induction l with
  | nil => simp [List.find?, hu]
  | cons a t ih =>
    have ha : p a = false := h a (List.mem_cons_self a t)
    simp only [List.cons_append, List.find?, ha]
    exact ih fun x hx => h x (List.mem_cons_of_mem a hx)

theorem lazyInit_postInit (env : Env) (docs : List User) :
    lazyInit env (postInit docs) = (.ok (), postInit docs) :=
  lazyInit_of_initialized env (postInit docs) rfl

/-- A sample user holding a Google account `g1` and a Facebook account `f1`. -/
def gUser : User :=
  { id := 1, email := "alice@example.com",
    oauth_accounts := [⟨"google", "g1"⟩, ⟨"facebook", "f1"⟩],
    extra := [("hashed_password", "h1")] }

/-- A sample user (distinct id and email from `gUser`) holding the same
Google account `g1` as `gUser`. -/
def bUser : User :=
  { id := 2, email := "bob@example.com",
    oauth_accounts := [⟨"google", "g1"⟩],
    extra := [("hashed_password", "h2")] }

/-- Claim C1: the specification states that `getByOAuthAccount(provider,
accountId)` matches both sub-fields on the SAME array element and returns
absent when no document holds that exact pair.  The source's filter
`{"oauth_accounts.oauth_name": ..., "oauth_accounts.account_id": ...}` has no
`$elemMatch`, so MongoDB matches the two conditions independently across the
array: on a document whose accounts are `("google","g1")` and
`("facebook","f1")`, the lookup for `("google","f1")` returns the document
although none of its elements carries that pair. -/
theorem get_by_oauth_account_cross_element :
    (get_by_oauth_account okEnv "google" "f1" (mkStore [gUser] none)).1
      = .ok (some gUser) ∧
    ∀ a ∈ gUser.oauth_accounts, ¬(a.oauth_name = "google" ∧ a.account_id = "f1") :=
  ⟨rfl, by decide⟩

theorem insertOne_postInit_ok (docs : List User) (u : User)
    (hid : ∀ d ∈ docs, d.id ≠ u.id) (hemail : ∀ d ∈ docs, d.email ≠ u.email) :
    insertOne u (postInit docs) = .ok (postInit (docs ++ [u])) := by
  have hc : ((postInit docs).indexes.any fun ix =>
      (postInit docs).docs.any fun d => indexKeyClash ix d u) = false := by
    simp only [postInit, List.any_cons, List.any_nil, Bool.or_false,
      Bool.or_eq_false_iff, List.any_eq_false]
    refine ⟨fun d hd => ?_, fun d hd => ?_⟩
    · simp [indexKeyClash, idIndex, hid d hd]
    · simp [indexKeyClash, emailIndex, hemail d hd]
  unfold insertOne
  rw [hc]
  rfl

/-- Claim C2 counterexample: the collection holds `gUser` with the oauth pair
`("google","g1")`; creating `bUser`, which carries the same pair but a fresh
id and email, does NOT fail with a uniqueness violation — it succeeds and the
document is inserted, because lazy initialization creates no index on oauth
pairs. -/
theorem create_duplicate_oauth_pair_not_rejected :
    (∃ d ∈ (mkStore [gUser] none).docs,
        (⟨"google", "g1"⟩ : OAuthAccount) ∈ d.oauth_accounts ∧
        (⟨"google", "g1"⟩ : OAuthAccount) ∈ bUser.oauth_accounts) ∧
    (create okEnv bUser (mkStore [gUser] none)).1 = .ok bUser ∧
    (create okEnv bUser (mkStore [gUser] none)).2.docs = [gUser, bUser] :=
  ⟨by decide, rfl, rfl⟩

/-- Claim C2 (amended): creating a user whose oauth pair already occurs in
another stored document succeeds whenever its id and email are fresh — the
store never establishes a uniqueness constraint on oauth pairs (lazy
initialization creates only the id and email indexes), so the storage engine
raises no UniquenessViolation and the document is inserted. -/
theorem create_with_duplicate_oauth_pair (docs : List User) (u : User)
    (hpair : ∃ d ∈ docs, ∃ a ∈ d.oauth_accounts, a ∈ u.oauth_accounts)
    (hid : ∀ d ∈ docs, d.id ≠ u.id) (hemail : ∀ d ∈ docs, d.email ≠ u.email) :
    (create okEnv u (mkStore docs none)).1 = .ok u ∧
    (create okEnv u (mkStore docs none)).2.docs = docs ++ [u] := by
  have h := insertOne_postInit_ok docs u hid hemail
  simp [create, lazyInit_fresh, h, postInit_docs]

theorem create_with_duplicate_oauth_pair_witness :
    ((∃ d ∈ [gUser], ∃ a ∈ d.oauth_accounts, a ∈ bUser.oauth_accounts) ∧
     (∀ d ∈ [gUser], d.id ≠ bUser.id) ∧ (∀ d ∈ [gUser], d.email ≠ bUser.email)) ∧
    (create okEnv bUser (mkStore [gUser] none)).1 = .ok bUser :=
  ⟨⟨by decide, by decide, by decide⟩,
   (create_with_duplicate_oauth_pair [gUser] bUser (by decide) (by decide) (by decide)).1⟩

/-- A sample user with id, email and oauth accounts disjoint from `gUser`
and `bUser`. -/
def cUser : User :=
  { id := 3, email := "carol@example.com",
    oauth_accounts := [⟨"github", "h3"⟩],
    extra := [("hashed_password", "h3"), ("is_superuser", "true")] }

/-- Claim C3: for a user whose id, email and oauth pairs are absent from the
collection, `create` succeeds and returns the same user, and a subsequent
`get` on its id returns a document equal to the user — every field of the
record, the uninterpreted `extra` ones included, round-trips. -/
theorem create_then_get_roundtrip (docs : List User) (u : User)
    (hid : ∀ d ∈ docs, d.id ≠ u.id)
    (hemail : ∀ d ∈ docs, d.email ≠ u.email)
    (hoauth : ∀ d ∈ docs, ∀ a ∈ d.oauth_accounts, a ∉ u.oauth_accounts) :
    (create okEnv u (mkStore docs none)).1 = .ok u ∧
    (get okEnv u.id (create okEnv u (mkStore docs none)).2).1 = .ok (some u) := by
  have h := insertOne_postInit_ok docs u hid hemail
  have hfind : (docs ++ [u]).find? (fun d => d.id == u.id) = some u :=
    find?_append_last _ docs u (fun d hd => by simp [hid d hd]) (by simp)
  constructor
  · simp [create, lazyInit_fresh, h]
  · simp [create, lazyInit_fresh, h, get, lazyInit_postInit, postInit_docs, hfind]

theorem create_then_get_roundtrip_witness :
    ((∀ d ∈ [gUser], d.id ≠ cUser.id) ∧ (∀ d ∈ [gUser], d.email ≠ cUser.email) ∧
     (∀ d ∈ [gUser], ∀ a ∈ d.oauth_accounts, a ∉ cUser.oauth_accounts)) ∧
    (create okEnv cUser (mkStore [gUser] none)).1 = .ok cUser ∧
    (get okEnv cUser.id (create okEnv cUser (mkStore [gUser] none)).2).1
      = .ok (some cUser) :=
  ⟨⟨by decide, by decide, by decide⟩,
   create_then_get_roundtrip [gUser] cUser (by decide) (by decide) (by decide)⟩

/-- Claim C5: creating a user whose id, or whose email under plain equality,
already occurs in some stored document fails with the engine's uniqueness
violation, and the collection's documents are unchanged by the failed call. -/
theorem create_duplicate_id_or_email_rejected (docs : List User) (u : User)
    (h : ∃ d ∈ docs, d.id = u.id ∨ d.email = u.email) :
    (create okEnv u (mkStore docs none)).1 = .error .duplicateKeyError ∧
    (create okEnv u (mkStore docs none)).2.docs = docs := by
  obtain ⟨d, hd, hcase⟩ := h
  have hc : ((postInit docs).indexes.any fun ix =>
      (postInit docs).docs.any fun x => indexKeyClash ix x u) = true := by
    simp only [postInit_indexes, postInit_docs]
    rw [List.any_eq_true]
    rcases hcase with h1 | h2
    · refine ⟨idIndex, by simp, ?_⟩
      rw [List.any_eq_true]
      exact ⟨d, hd, by simp [indexKeyClash, idIndex, h1]⟩
    · refine ⟨emailIndex, by simp, ?_⟩
      rw [List.any_eq_true]
      exact ⟨d, hd, by simp [indexKeyClash, emailIndex, h2]⟩
  have hins : insertOne u (postInit docs) = .error .duplicateKeyError := by
    unfold insertOne
    rw [hc]
    rfl
  simp [create, lazyInit_fresh, hins, postInit_docs]

theorem create_duplicate_id_or_email_rejected_witness :
    (∃ d ∈ [gUser, cUser], d.id = gUser.id ∨ d.email = gUser.email) ∧
    (create okEnv gUser (mkStore [gUser, cUser] none)).1
      = .error .duplicateKeyError ∧
    (create okEnv gUser (mkStore [gUser, cUser] none)).2.docs = [gUser, cUser] :=
  ⟨by decide,
   (create_duplicate_id_or_email_rejected [gUser, cUser] gUser (by decide)).1,
   (create_duplicate_id_or_email_rejected [gUser, cUser] gUser (by decide)).2⟩

/-- Claim C9: when no stored document satisfies the respective filter, each
lookup — by id, by email (under the collation), and by oauth account —
returns a successful absent result, not an error. -/
theorem lookups_return_absent (docs : List User) (i : Nat) (e p a : String)
    (hid : ∀ d ∈ docs, d.id ≠ i)
    (hemail : ∀ d ∈ docs, defaultCollation d.email e = false)
    (hoauth : ∀ d ∈ docs,
      ¬((d.oauth_accounts.any fun x => x.oauth_name == p) = true ∧
        (d.oauth_accounts.any fun x => x.account_id == a) = true)) :
    (get okEnv i (mkStore docs none)).1 = .ok none ∧
    (get_by_email okEnv e (mkStore docs none)).1 = .ok none ∧
    (get_by_oauth_account okEnv p a (mkStore docs none)).1 = .ok none := by
  refine ⟨?_, ?_, ?_⟩
  · have hf : docs.find? (fun d => d.id == i) = none := by
      rw [List.find?_eq_none]
      intro d hd
      simp [hid d hd]
    simp [get, lazyInit_fresh, postInit_docs, hf]
  · have hf : docs.find? (fun d => defaultCollation d.email e) = none := by
      rw [List.find?_eq_none]
      intro d hd
      simp [hemail d hd]
    simp [get_by_email, lazyInit_fresh, postInit_docs, postInit_emailCollation, hf]
  · have hf : docs.find? (fun d =>
        (d.oauth_accounts.any fun x => x.oauth_name == p) &&
        (d.oauth_accounts.any fun x => x.account_id == a)) = none := by
      rw [List.find?_eq_none]
      intro d hd
      simp only [Bool.and_eq_true]
      exact hoauth d hd
    simp [get_by_oauth_account, lazyInit_fresh, postInit_docs, hf]

theorem lookups_return_absent_witness :
    ((∀ d ∈ [gUser, bUser], d.id ≠ 99) ∧
     (∀ d ∈ [gUser, bUser], defaultCollation d.email "zoe@example.com" = false) ∧
     (∀ d ∈ [gUser, bUser],
       ¬((d.oauth_accounts.any fun x => x.oauth_name == "github") = true ∧
         (d.oauth_accounts.any fun x => x.account_id == "zzz") = true))) ∧
    (get okEnv 99 (mkStore [gUser, bUser] none)).1 = .ok none ∧
    (get_by_email okEnv "zoe@example.com" (mkStore [gUser, bUser] none)).1 = .ok none ∧
    (get_by_oauth_account okEnv "github" "zzz" (mkStore [gUser, bUser] none)).1
      = .ok none :=
  ⟨⟨by decide, by decide, by decide⟩,
   lookups_return_absent [gUser, bUser] 99 "zoe@example.com" "github" "zzz"
     (by decide) (by decide) (by decide)⟩

/-- A sample user whose email has upper-case letters. -/
def aUser : User :=
  { id := 4, email := "A@B.com", oauth_accounts := [],
    extra := [("hashed_password", "h4")] }

/-- Claim C6: after creating a user (fresh id and plain email, no stored
email collation-equal to the query), `get_by_email` finds it for every query
string that equals its email under the collation; with the collation argument
omitted, the default comparison equates strings differing only in letter
case while keeping accented letters distinct. -/
theorem create_then_get_by_email (docs : List User) (u : User) (e : String)
    (hid : ∀ d ∈ docs, d.id ≠ u.id)
    (hemail : ∀ d ∈ docs, d.email ≠ u.email)
    (hcoll : ∀ d ∈ docs, defaultCollation d.email e = false)
    (hmatch : defaultCollation u.email e = true) :
    (get_by_email okEnv e (create okEnv u (mkStore docs none)).2).1 = .ok (some u) ∧
    defaultCollation "A@B.com" "a@b.com" = true ∧
    defaultCollation "père@ex.fr" "pere@ex.fr" = false := by
  refine ⟨?_, by decide, by decide⟩
  have h := insertOne_postInit_ok docs u hid hemail
  have hfind : (docs ++ [u]).find? (fun d => defaultCollation d.email e) = some u :=
    find?_append_last _ docs u (fun d hd => hcoll d hd) hmatch
  simp [create, lazyInit_fresh, h, get_by_email, lazyInit_postInit, postInit_docs,
    postInit_emailCollation, hfind]

theorem create_then_get_by_email_witness :
    defaultCollation aUser.email "a@b.com" = true ∧
    (get_by_email okEnv "a@b.com" (create okEnv aUser (mkStore [gUser] none)).2).1
      = .ok (some aUser) :=
  ⟨by decide,
   (create_then_get_by_email [gUser] aUser "a@b.com"
     (by decide) (by decide) (by decide) (by decide)).1⟩

theorem replaceOne_not_found (i : Nat) (u : User) (s : Store)
    (h : (s.docs.any fun d => d.id == i) = false) :
    replaceOne i u s = .ok s := by
  unfold replaceOne
  rw [h]
  rfl

theorem find?_replaceFirst_self (u : User) (l : List User)
    (h : ∃ d ∈ l, d.id = u.id) :
    (replaceFirst u.id u l).find? (fun d => d.id == u.id) = some u := by
  induction l with
  | nil => simp at h
  | cons a t ih =>
    by_cases ha : a.id = u.id
    · simp [replaceFirst, ha, List.find?]
    · have hrw : replaceFirst u.id u (a :: t) = a :: replaceFirst u.id u t := by
        simp [replaceFirst, ha]
      have hpa : (a.id == u.id) = false := by simp [ha]
      rw [hrw]
      simp only [List.find?, hpa]
      apply ih
      rcases h with ⟨d, hd, hdi⟩
      rcases List.mem_cons.mp hd with rfl | hdt
      · exact absurd hdi ha
      · exact ⟨d, hdt, hdi⟩

theorem replaceOne_found (docs : List User) (u : User)
    (hmem : ∃ d ∈ docs, d.id = u.id)
    (hother : ∀ d ∈ docs, d.id = u.id ∨ d.email ≠ u.email) :
    replaceOne u.id u (postInit docs) = .ok (postInit (replaceFirst u.id u docs)) := by
  have hany : ((postInit docs).docs.any fun d => d.id == u.id) = true := by
    rw [postInit_docs, List.any_eq_true]
    rcases hmem with ⟨d, hd, hdi⟩
    exact ⟨d, hd, by simp [hdi]⟩
  have hclash : ((postInit docs).indexes.any fun ix =>
      (postInit docs).docs.any fun d => !(d.id == u.id) && indexKeyClash ix d u) = false := by
    simp only [postInit_indexes, postInit_docs, List.any_cons, List.any_nil,
      Bool.or_false, Bool.or_eq_false_iff, List.any_eq_false]
    refine ⟨fun d hd => ?_, fun d hd => ?_⟩
    · cases hdi : (d.id == u.id) <;> simp [indexKeyClash, idIndex, hdi]
    · rcases hother d hd with h1 | h2
      · simp [h1]
      · simp [indexKeyClash, emailIndex, h2]
  unfold replaceOne
  rw [hany, hclash]
  rfl

/-- Claim C7: `update` on a user whose id matches no stored document is a
silent no-op — no error, no insertion, the same user returned; on a matching
id it replaces the matched document wholesale, so a subsequent `get` returns
exactly the new user (requiring, per the engine's email uniqueness index,
that no other document holds the new email). -/
theorem update_semantics (docs : List User) (u : User) :
    ((∀ d ∈ docs, d.id ≠ u.id) →
      (update okEnv u (mkStore docs none)).1 = .ok u ∧
      (update okEnv u (mkStore docs none)).2.docs = docs) ∧
    ((∃ d ∈ docs, d.id = u.id) →
      (∀ d ∈ docs, d.id = u.id ∨ d.email ≠ u.email) →
      (update okEnv u (mkStore docs none)).1 = .ok u ∧
      (get okEnv u.id (update okEnv u (mkStore docs none)).2).1 = .ok (some u) ∧
      (update okEnv u (mkStore docs none)).2.docs = replaceFirst u.id u docs) := by
  constructor
  · intro hnone
    have hany : ((postInit docs).docs.any fun d => d.id == u.id) = false := by
      rw [postInit_docs, List.any_eq_false]
      intro d hd
      simp [hnone d hd]
    have hrep := replaceOne_not_found u.id u (postInit docs) hany
    constructor
    · simp [update, lazyInit_fresh, hrep]
    · simp [update, lazyInit_fresh, hrep, postInit_docs]
  · intro hmem hother
    have hrep := replaceOne_found docs u hmem hother
    have hfind := find?_replaceFirst_self u docs hmem
    refine ⟨?_, ?_, ?_⟩
    · simp [update, lazyInit_fresh, hrep]
    · simp [update, lazyInit_fresh, hrep, get, lazyInit_postInit, postInit_docs, hfind]
    · simp [update, lazyInit_fresh, hrep, postInit_docs]

/-- The user `gUser` with a changed email and no oauth accounts or extra
fields, used to exercise wholesale replacement. -/
def gUserV2 : User :=
  { id := 1, email := "alice2@example.com", oauth_accounts := [], extra := [] }

theorem update_semantics_witness :
    ((∀ d ∈ [gUser], d.id ≠ cUser.id) ∧
     (update okEnv cUser (mkStore [gUser] none)).1 = .ok cUser ∧
     (update okEnv cUser (mkStore [gUser] none)).2.docs = [gUser]) ∧
    ((∃ d ∈ [gUser, bUser], d.id = gUserV2.id) ∧
     (∀ d ∈ [gUser, bUser], d.id = gUserV2.id ∨ d.email ≠ gUserV2.email) ∧
     (get okEnv gUserV2.id (update okEnv gUserV2 (mkStore [gUser, bUser] none)).2).1
       = .ok (some gUserV2)) :=
  ⟨⟨by decide, ((update_semantics [gUser] cUser).1 (by decide)).1,
    ((update_semantics [gUser] cUser).1 (by decide)).2⟩,
   ⟨by decide, by decide,
    ((update_semantics [gUser, bUser] gUserV2).2 (by decide) (by decide)).2.1⟩⟩

theorem find?_eraseP_none {α : Type} (p : α → Bool) (l : List α)
    (h : (l.filter p).length ≤ 1) :
    (l.eraseP p).find? p = none := by
  induction l with
  | nil => simp
  | cons a t ih =>
    by_cases hpa : p a = true
    · rw [List.eraseP_cons_of_pos hpa, List.find?_eq_none]
      intro x hx
      have hfil : (t.filter p).length = 0 := by
        have := h
        rw [List.filter_cons_of_pos hpa] at this
        simp only [List.length_cons] at this
        omega
      have : t.filter p = [] := List.length_eq_zero.mp hfil
      exact (List.filter_eq_nil_iff.mp this) x hx
    · rw [List.eraseP_cons_of_neg (by simpa using hpa)]
      have hpa' : p a = false := by simpa using hpa
      simp only [List.find?, hpa']
      apply ih
      rwa [List.filter_cons_of_neg (by simpa using hpa)] at h

theorem postInit_set_docs (docs x : List User) :
    { postInit docs with docs := x } = postInit x := rfl

/-- Claim C8: `delete` returns normally; after deleting a user (stored at
most once, as the id uniqueness index guarantees), `get` on its id returns
absent; deleting a user whose id matches no document removes nothing. -/
theorem delete_then_get_absent (docs : List User) (u : User)
    (hone : (docs.filter fun d => d.id == u.id).length ≤ 1) :
    (delete okEnv u (mkStore docs none)).1 = .ok () ∧
    (get okEnv u.id (delete okEnv u (mkStore docs none)).2).1 = .ok none ∧
    ((∀ d ∈ docs, d.id ≠ u.id) →
      (delete okEnv u (mkStore docs none)).2.docs = docs) := by
  have hf := find?_eraseP_none (fun d => d.id == u.id) docs hone
  refine ⟨?_, ?_, ?_⟩
  · simp [delete, lazyInit_fresh]
  · simp [delete, lazyInit_fresh, deleteOne, postInit_docs, postInit_set_docs, get,
      lazyInit_postInit, hf]
  · intro hnone
    have her : docs.eraseP (fun d => d.id == u.id) = docs :=
      List.eraseP_of_forall_not (fun d hd => by simp [hnone d hd])
    simp [delete, lazyInit_fresh, deleteOne, postInit_docs, her]

theorem delete_then_get_absent_witness :
    (([gUser, bUser].filter fun d => d.id == gUser.id).length ≤ 1) ∧
    (delete okEnv gUser (mkStore [gUser, bUser] none)).1 = .ok () ∧
    (get okEnv gUser.id (delete okEnv gUser (mkStore [gUser, bUser] none)).2).1
      = .ok none :=
  ⟨by decide,
   (delete_then_get_absent [gUser, bUser] gUser (by decide)).1,
   (delete_then_get_absent [gUser, bUser] gUser (by decide)).2.1⟩

theorem insertOne_frame (u : User) (s s2 : Store) (h : insertOne u s = .ok s2) :
    s2.indexes = s.indexes ∧ s2.initialized = s.initialized ∧
    s2.indexCalls = s.indexCalls := by
  unfold insertOne at h
  split at h
  · exact absurd h (by simp)
  · injection h with h
    subst h
    exact ⟨rfl, rfl, rfl⟩

theorem replaceOne_frame (i : Nat) (u : User) (s s2 : Store)
    (h : replaceOne i u s = .ok s2) :
    s2.indexes = s.indexes ∧ s2.initialized = s.initialized ∧
    s2.indexCalls = s.indexCalls := by
  unfold replaceOne at h
  split at h
  · split at h
    · exact absurd h (by simp)
    · injection h with h
      subst h
      exact ⟨rfl, rfl, rfl⟩
  · injection h with h
    subst h
    exact ⟨rfl, rfl, rfl⟩

theorem runOpState_after_init (op : Op) (s t : Store)
    (h : lazyInit okEnv s = (.ok (), t)) :
    (runOpState okEnv op s).indexes = t.indexes ∧
    (runOpState okEnv op s).initialized = t.initialized ∧
    (runOpState okEnv op s).indexCalls = t.indexCalls := by
  cases op with
  | get i => simp [runOpState, get, h]
  | getByEmail e => simp [runOpState, get_by_email, h]
  | getByOAuthAccount p a => simp [runOpState, get_by_oauth_account, h]
  | create u =>
    simp only [runOpState, create, h]
    cases hins : insertOne u t with
    | error e => simp
    | ok s2 =>
      have h2 := insertOne_frame u t s2 hins
      simp [h2.1, h2.2.1, h2.2.2]
  | update u =>
    simp only [runOpState, update, h]
    cases hrep : replaceOne u.id u t with
    | error e => simp
    | ok s2 =>
      have h2 := replaceOne_frame u.id u t s2 hrep
      simp [h2.1, h2.2.1, h2.2.2]
  | delete u => simp [runOpState, delete, h, deleteOne]

theorem runOpState_fresh (op : Op) (docs : List User) :
    runOpState okEnv op (mkStore docs none) = runOpState okEnv op (postInit docs) := by
  cases op <;> simp [runOpState, get, get_by_email, get_by_oauth_account, create,
    update, delete, lazyInit_fresh, lazyInit_postInit]

/-- Claim C4: every public operation first runs the lazy initialization; on a
fresh store it leaves exactly the two plain-equality uniqueness indexes (on
id and on email, neither collation-aware), the flag set, and exactly two
`create_index` calls issued; the operation behaves as if initialization had
already run; and any further operation — gated by the flag — adds no index
and issues no further `create_index` call. -/
theorem ops_run_lazy_initialization (op : Op) (docs : List User) :
    (runOpState okEnv op (mkStore docs none)).initialized = true ∧
    (runOpState okEnv op (mkStore docs none)).indexes = [idIndex, emailIndex] ∧
    (runOpState okEnv op (mkStore docs none)).indexCalls = 2 ∧
    (∀ ix ∈ (runOpState okEnv op (mkStore docs none)).indexes,
        ix.unique = true ∧ ix.collationAware = false) ∧
    runOpState okEnv op (mkStore docs none)
      = runOpState okEnv op (lazyInit okEnv (mkStore docs none)).2 ∧
    (∀ op2,
      (runOpState okEnv op2 (runOpState okEnv op (mkStore docs none))).indexes
        = (runOpState okEnv op (mkStore docs none)).indexes ∧
      (runOpState okEnv op2 (runOpState okEnv op (mkStore docs none))).indexCalls
        = 2 ∧
      (runOpState okEnv op2 (runOpState okEnv op (mkStore docs none))).initialized
        = true) := by
  have h0 := lazyInit_fresh docs
  have h1 := runOpState_after_init op (mkStore docs none) (postInit docs) h0
  have hinit : (runOpState okEnv op (mkStore docs none)).initialized = true :=
    h1.2.1.trans (postInit_initialized docs)
  have hix : (runOpState okEnv op (mkStore docs none)).indexes = [idIndex, emailIndex] :=
    h1.1.trans (postInit_indexes docs)
  have hcalls : (runOpState okEnv op (mkStore docs none)).indexCalls = 2 :=
    h1.2.2.trans (postInit_indexCalls docs)
  refine ⟨hinit, hix, hcalls, ?_, ?_, ?_⟩
  · intro ix hmem
    rw [hix] at hmem
    simp only [List.mem_cons, List.mem_singleton] at hmem
    rcases hmem with rfl | rfl | h
    · exact ⟨rfl, rfl⟩
    · exact ⟨rfl, rfl⟩
    · exact absurd h (List.not_mem_nil ix)
  · rw [show (lazyInit okEnv (mkStore docs none)).2 = postInit docs by rw [h0]]
    exact runOpState_fresh op docs
  · intro op2
    have h2 := runOpState_after_init op2 (runOpState okEnv op (mkStore docs none))
      (runOpState okEnv op (mkStore docs none))
      (lazyInit_of_initialized okEnv _ hinit)
    exact ⟨h2.1, h2.2.2.trans hcalls, h2.2.1.trans hinit⟩

/-- The store after the id index was created but the email index creation
failed: one index, flag still unset. -/
def midStore (docs : List User) : Store :=
  { docs := docs, indexes := [idIndex], initialized := false,
    emailCollation := defaultCollation, indexCalls := 1 }

theorem lazyInit_okEnv_midStore (docs : List User) :
    lazyInit okEnv (midStore docs) =
      (.ok (), { docs := docs, indexes := [idIndex, emailIndex], initialized := true,
                 emailCollation := defaultCollation, indexCalls := 3 }) := rfl

/-- Claim C10: when either `create_index` call of the lazy initialization
raises, the error propagates, the `initialized` flag stays false, and the
next public operation re-attempts initialization, ending with the flag set
and both uniqueness indexes present. -/
theorem lazyInit_failure_then_retry (env : Env) (docs : List User)
    (hfail : env.failIdIndex = true ∨ env.failEmailIndex = true) :
    (lazyInit env (mkStore docs none)).1 = .error .operationFailure ∧
    (lazyInit env (mkStore docs none)).2.initialized = false ∧
    (∀ op,
      (runOpState okEnv op (lazyInit env (mkStore docs none)).2).initialized = true ∧
      (runOpState okEnv op (lazyInit env (mkStore docs none)).2).indexes
        = [idIndex, emailIndex]) := by
  cases hid : env.failIdIndex with
  | true =>
    have hstep : lazyInit env (mkStore docs none)
        = (.error .operationFailure, mkStore docs none) := by
      simp [lazyInit, createIndex, hid, mkStore]
    refine ⟨by rw [hstep], by rw [hstep]; rfl, fun op => ?_⟩
    rw [hstep]
    have h := runOpState_after_init op (mkStore docs none) (postInit docs)
      (lazyInit_fresh docs)
    exact ⟨h.2.1.trans (postInit_initialized docs), h.1.trans (postInit_indexes docs)⟩
  | false =>
    have hem : env.failEmailIndex = true := by
      rcases hfail with h | h
      · rw [hid] at h
        exact absurd h (by simp)
      · exact h
    have hstep : lazyInit env (mkStore docs none)
        = (.error .operationFailure, midStore docs) := by
      simp [lazyInit, createIndex, hid, hem, mkStore, addIndex, midStore]
    refine ⟨by rw [hstep], by rw [hstep]; rfl, fun op => ?_⟩
    rw [hstep]
    have h := runOpState_after_init op (midStore docs) _
      (lazyInit_okEnv_midStore docs)
    exact ⟨h.2.1.trans rfl, h.1.trans rfl⟩

theorem lazyInit_failure_then_retry_witness :
    ((⟨true, false⟩ : Env).failIdIndex = true ∨
      (⟨true, false⟩ : Env).failEmailIndex = true) ∧
    (lazyInit ⟨true, false⟩ (mkStore [gUser] none)).1 = .error .operationFailure ∧
    (lazyInit ⟨true, false⟩ (mkStore [gUser] none)).2.initialized = false ∧
    (runOpState okEnv (.get 7)
      (lazyInit ⟨true, false⟩ (mkStore [gUser] none)).2).initialized = true ∧
    (runOpState okEnv (.get 7)
      (lazyInit ⟨true, false⟩ (mkStore [gUser] none)).2).indexes
      = [idIndex, emailIndex] :=
  ⟨Or.inl rfl,
   (lazyInit_failure_then_retry ⟨true, false⟩ [gUser] (Or.inl rfl)).1,
   (lazyInit_failure_then_retry ⟨true, false⟩ [gUser] (Or.inl rfl)).2.1,
   ((lazyInit_failure_then_retry ⟨true, false⟩ [gUser] (Or.inl rfl)).2.2 (.get 7)).1,
   ((lazyInit_failure_then_retry ⟨true, false⟩ [gUser] (Or.inl rfl)).2.2 (.get 7)).2⟩

end MongoDB
